import Mathlib

/-!
Verification of the analog-nest-rpc invocation pipeline.

Shallow embedding of:
- `src/h3/context.ts` (`invokeNestAction`, `runGuards`, `resolveParamDecorators`)
- `src/bridge.ts` (`createNestBridge` bootstrap protocol, modelled as a step
  relation over the global `__NEST_APP_CTX__` / `__NEST_APP_CTX_PROMISE__` state)
- `src/client.ts` (`createRpcClient` proxy member access and transport handling)
- the serialization codec (the repository delegates to the external
  `superjson` package; the codec is modelled from the spec)
-/

/-- Runtime values flowing through the invocation pipeline.  `request` stands
for the adapted request view (`context.getRequest()`, the `H3RequestAdapter`). -/
inductive JsValue where
  | undef
  | null
  | boolV (b : Bool)
  | num (n : Int)
  | str (s : String)
  | request
  deriving Repr, DecidableEq

/-- One entry of the `ROUTE_ARGS_METADATA` record, as read by
`resolveParamDecorators` in `src/h3/context.ts`: the slot `index`, whether the
metadata key contains `__customRouteArgs__`, the `parseInt`-parsed param type
prefix of the key (`0` = `RouteParamtypes.REQUEST`), the optional custom
`factory` and its `data`. -/
structure ParamMeta where
  isCustom : Bool
  paramType : Nat
  index : Nat
  factory : Option (JsValue → JsValue)
  data : JsValue

/-- Body of the metadata loop of `resolveParamDecorators`
(`src/h3/context.ts` lines 175-195): a custom decorator with a factory stores
`factory(data, context)` at its slot; otherwise the switch on the parsed param
type stores `context.getRequest()` for `REQUEST` and leaves every other slot
untouched. -/
def applyDecorator (requestVal : JsValue) (acc : List JsValue) (m : ParamMeta) :
    List JsValue :=
  if m.isCustom then
    match m.factory with
    | some f => acc.set m.index (f m.data)
    | none =>
      match m.paramType with
      | 0 => acc.set m.index requestVal
      | _ => acc
  else
    match m.paramType with
    | 0 => acc.set m.index requestVal
    | _ => acc

/-- Fill loop of `resolveParamDecorators` (`src/h3/context.ts` lines 197-202):
walk the slot indices in ascending order; a slot without a declared decorator
consumes the next caller-supplied argument while any remain.  Returns the
filled array together with the unconsumed arguments. -/
def fillUndeclared (declared : List Nat) :
    List Nat → List JsValue × List JsValue → List JsValue × List JsValue
  | [], p => p
  | i :: is, (arr, args) =>
    if i ∈ declared then fillUndeclared declared is (arr, args)
    else
      match args with
      | [] => fillUndeclared declared is (arr, [])
      | a :: rest => fillUndeclared declared is (arr.set i a, rest)

/-- `resolveParamDecorators` from `src/h3/context.ts` lines 145-208: with no
metadata the caller arguments pass through unchanged; otherwise allocate
`maxIndex + 1` slots initialized to `undefined`, run the decorator loop, fill
undeclared slots from the caller arguments in ascending index order, and append
the leftover caller arguments. -/
def resolveParamDecorators (metadata : List ParamMeta) (requestVal : JsValue)
    (rpcArgs : List JsValue) : List JsValue :=
  if metadata.isEmpty then rpcArgs
  else
    let maxIndex := (metadata.map (·.index)).foldl Nat.max 0
    let initArr := List.replicate (maxIndex + 1) JsValue.undef
    let decoratorIndices := metadata.map (·.index)
    let afterDecorators := metadata.foldl (applyDecorator requestVal) initArr
    let filled :=
      fillUndeclared decoratorIndices (List.range (maxIndex + 1))
        (afterDecorators, rpcArgs)
    filled.1 ++ filled.2

/-- Outcome of one `canActivate` invocation: a returned boolean or a thrown
error. -/
inductive CheckResult where
  | ret (b : Bool)
  | throwErr (msg : String)
  deriving Repr, DecidableEq

/-- One guard class in the `@UseGuards` metadata.  `resolveOk` says whether
`app.resolve(GuardClass, contextId, strict := false)` succeeds, `ctorOk`
whether the fallback `new GuardClass()` succeeds; `checkResolved` and
`checkFallback` are the behaviours of `canActivate` on the DI-resolved and on
the directly constructed instance respectively. -/
structure GuardSpec where
  id : Nat
  resolveOk : Bool
  ctorOk : Bool
  checkResolved : CheckResult
  checkFallback : CheckResult
  deriving Repr, DecidableEq

/-- Errors escaping `runGuards`: a thrown `ForbiddenException` or any other
error propagating raw. -/
inductive GuardError where
  | forbidden (msg : String)
  | raw (msg : String)
  deriving Repr, DecidableEq

/-- Guard instance acquisition of `runGuards` (`src/h3/context.ts` lines
131-136): try `app.resolve`; on failure fall back to `new GuardClass()`
without dependency injection; if that constructor throws the error escapes
(the `catch` block rethrows nothing else). -/
def resolveGuard (g : GuardSpec) : Except String CheckResult :=
  if g.resolveOk then .ok g.checkResolved
  else if g.ctorOk then .ok g.checkFallback
  else .error "guard constructor threw"

/-- Loop of `runGuards` (`src/h3/context.ts` lines 130-142) over the
concatenated guard list: acquire each guard, invoke `canActivate`, throw
`ForbiddenException "Access denied by guard"` on a falsy result, let thrown
errors escape.  Also returns the ids of the guards whose `canActivate` was
actually invoked, in invocation order. -/
def runGuards : List GuardSpec → Except GuardError Unit × List Nat
  | [] => (.ok (), [])
  | g :: rest =>
    match resolveGuard g with
    | .error e => (.error (.raw e), [])
    | .ok c =>
      match c with
      | .throwErr m => (.error (.raw m), [g.id])
      | .ret false => (.error (.forbidden "Access denied by guard"), [g.id])
      | .ret true =>
        let r := runGuards rest
        (r.1, g.id :: r.2)

/-- `true` when the guard passes: acquisition succeeds and `canActivate`
returns a truthy value. -/
def guardPasses (g : GuardSpec) : Bool :=
  match resolveGuard g with
  | .ok (.ret true) => true
  | _ => false

/-- `true` exactly when the guard outcome is a `ForbiddenException`. -/
def isUnauthorized : Except GuardError Unit → Bool
  | .error (.forbidden _) => true
  | _ => false

/-- Static data of one remote-callable action as `invokeNestAction` sees it:
class-level and method-level guard metadata, the route-args metadata,
and the handler found on the resolved controller (`none` when the method is
absent or not a function). -/
structure ActionSetup where
  classGuards : List GuardSpec
  methodGuards : List GuardSpec
  paramMetadata : List ParamMeta
  handler : Option (List JsValue → JsValue)

/-- Errors of the orchestrator itself. -/
inductive InvokeError where
  | handlerNotFound (methodName : String)
  | guardErr (e : GuardError)
  deriving Repr

/-- Result of a full `invokeNestAction` run, instrumented with whether the
target handler was invoked and with the guard invocation trace. -/
structure InvokeOutcome where
  result : Except InvokeError JsValue
  handlerInvoked : Bool
  guardTrace : List Nat

/-- `true` exactly when the invocation failed with a guard denial
(`ForbiddenException`). -/
def invokeUnauthorized : Except InvokeError JsValue → Bool
  | .error (.guardErr (.forbidden _)) => true
  | _ => false

/-- `invokeNestAction` from `src/h3/context.ts` lines 42-101, after controller
resolution: look up the handler (throwing `Method not found` if absent), run
the guards over class guards followed by method guards, resolve the param
decorators, invoke the handler with the bound arguments. -/
def invokeNestAction (setup : ActionSetup) (methodName : String)
    (args : List JsValue) (requestVal : JsValue) : InvokeOutcome :=
  match setup.handler with
  | none =>
    ⟨.error (.handlerNotFound ("Method " ++ methodName ++ " not found on controller")),
      false, []⟩
  | some h =>
    let g := runGuards (setup.classGuards ++ setup.methodGuards)
    match g.1 with
    | .error e => ⟨.error (.guardErr e), false, g.2⟩
    | .ok _ =>
      ⟨.ok (h (resolveParamDecorators setup.paramMetadata requestVal args)),
        true, g.2⟩

/-- Global bootstrap state of `createNestBridge` (`src/bridge.ts`): the stored
application context `__NEST_APP_CTX__` (`ctx`), the published pending promise
`__NEST_APP_CTX_PROMISE__` (`pending`), the builds currently executing
(`inFlight`), and a counter minting fresh build identities (`nextBuild`, which
also counts how many times the build function has ever been started). -/
structure BridgeState where
  ctx : Option Nat
  pending : Option Nat
  inFlight : List Nat
  nextBuild : Nat
  deriving Repr, DecidableEq

/-- State before any bootstrap: both globals unset, no build ever started. -/
def initialBridgeState : BridgeState := ⟨none, none, [], 0⟩

/-- What one caller of the bridge plugin observes on entry: the context was
already stored, or the caller now awaits the pending build `b`. -/
inductive EntryResult where
  | alreadyReady (e : Nat)
  | awaiting (b : Nat)
  deriving Repr, DecidableEq

/-- Synchronous entry section of the plugin returned by `createNestBridge`
(`src/bridge.ts` lines 58-88).  The section runs without any intervening
`await`: check `__NEST_APP_CTX__`, check `__NEST_APP_CTX_PROMISE__`, and only
if both are unset start the build and publish its promise before awaiting it —
so the whole section is one atomic step of the cooperative scheduler. -/
def callerEntry (s : BridgeState) : BridgeState × EntryResult :=
  match s.ctx with
  | some e => (s, .alreadyReady e)
  | none =>
    match s.pending with
    | some b => (s, .awaiting b)
    | none =>
      ({ ctx := none, pending := some s.nextBuild,
         inFlight := s.inFlight ++ [s.nextBuild], nextBuild := s.nextBuild + 1 },
       .awaiting s.nextBuild)

/-- Effect of build `b` completing successfully (`src/bridge.ts` lines 90-99):
the context is stored and a close hook is registered; the pending promise is
left in place (it is now resolved). -/
def buildSucceeds (s : BridgeState) (b : Nat) : BridgeState :=
  { s with ctx := some b, inFlight := s.inFlight.erase b }

/-- Effect of build `b` completing with an error (`src/bridge.ts` lines
100-104): only the pending promise is cleared so a later call can retry; the
stored context is not touched; the error is rethrown. -/
def buildFails (s : BridgeState) (b : Nat) : BridgeState :=
  { s with pending := none, inFlight := s.inFlight.erase b }

/-- Effect of the registered close hook (`src/bridge.ts` lines 94-99): close
the app and clear both globals. -/
def closeHook (s : BridgeState) : BridgeState :=
  { s with ctx := none, pending := none }

/-- Step relation of the bootstrap protocol: a caller entry, a build
completing with success or failure, or the close hook firing (the hook exists
only once a build has succeeded and stored the context). -/
inductive BridgeStep : BridgeState → BridgeState → Prop where
  | entry (s : BridgeState) : BridgeStep s (callerEntry s).1
  | success (s : BridgeState) (b : Nat) (hb : b ∈ s.inFlight) :
      BridgeStep s (buildSucceeds s b)
  | failure (s : BridgeState) (b : Nat) (hb : b ∈ s.inFlight) :
      BridgeStep s (buildFails s b)
  | close (s : BridgeState) (e : Nat) (he : s.ctx = some e) :
      BridgeStep s (closeHook s)

/-- States reachable from the initial bridge state. -/
inductive BridgeReachable : BridgeState → Prop where
  | init : BridgeReachable initialBridgeState
  | step {s s2 : BridgeState} :
      BridgeReachable s → BridgeStep s s2 → BridgeReachable s2

/-- Protocol invariant: at most one build is ever in flight, and a build in
flight is exactly the published pending one, started while no context was
stored. -/
def BridgeInv (s : BridgeState) : Prop :=
  s.inFlight.length ≤ 1 ∧ ∀ b ∈ s.inFlight, s.pending = some b ∧ s.ctx = none

/-- `n` callers entering the bridge plugin one after another, before any build
completes; returns the final state and what each caller observed. -/
def runEntries : Nat → BridgeState → BridgeState × List EntryResult
  | 0, s => (s, [])
  | n + 1, s =>
    let p := callerEntry s
    let q := runEntries n p.1
    (q.1, p.2 :: q.2)

/-- What a caller eventually receives, given the outcome of each build: a
caller awaiting build `b` observes the result of build `b` (the resolved
context or the rethrown build error); a caller that saw a stored context uses
it directly. -/
def observeOutcome (outcomes : Nat → Except String Nat) :
    EntryResult → Except String Nat
  | .alreadyReady e => .ok e
  | .awaiting b => outcomes b

/-- The reserved property names of the client proxy (`IGNORED_PROPS` in
`src/client.ts` lines 38-53): well-known object protocol names and the Angular
lifecycle hook names. -/
def IGNORED_PROPS : List String :=
  ["then", "toJSON", "toString", "constructor", "prototype",
   "ngOnInit", "ngOnDestroy", "ngOnChanges", "ngDoCheck",
   "ngAfterContentInit", "ngAfterContentChecked",
   "ngAfterViewInit", "ngAfterViewChecked"]

/-- A property key observed by the proxy `get` trap: a symbol or a string. -/
inductive ProxyProp where
  | symbolKey (id : Nat)
  | stringKey (s : String)
  deriving Repr, DecidableEq

/-- What the proxy `get` trap yields: `undefined`, or a callable that performs
the network round trip for the named action. -/
inductive ProxyMember where
  | undef
  | callable (action : String)
  deriving Repr, DecidableEq

/-- The JavaScript `String.prototype.startsWith` used by the proxy `get`
trap, embedded as a prefix test on the character sequence. -/
def jsStartsWith (s p : String) : Bool := p.data.isPrefixOf s.data

/-- The `get` trap of `createRpcClient` (`src/client.ts` lines 71-76): symbols,
names starting with an underscore or `ɵ`, and names in the ignored set yield
`undefined`; every other string name produces the calling closure. -/
def proxyGet : ProxyProp → ProxyMember
  | .symbolKey _ => .undef
  | .stringKey s =>
    if jsStartsWith s "_" || jsStartsWith s "ɵ" then .undef
    else if s ∈ IGNORED_PROPS then .undef
    else .callable s

mutual
/-- Modelled from the spec: the supported value universe of the serialization
codec (section 4.5).  The repository delegates encoding to the external
`superjson` package, whose source is not part of this repository; the universe
is taken from the spec's words: primitives, ordered sequences, key-unique
mappings, set collections, date/time instants, large integers beyond
safe-float range, and the absence-of-value marker distinct from the null
marker. -/
inductive RpcValue where
  | null
  | undef
  | boolV (b : Bool)
  | num (n : Int)
  | str (s : String)
  | bigint (n : Int)
  | date (ms : Int)
  | arr (xs : RpcValueList)
  | mapV (es : RpcEntryList)
  | setV (xs : RpcValueList)

/-- Ordered sequence of codec values. -/
inductive RpcValueList where
  | nil
  | cons (v : RpcValue) (tl : RpcValueList)

/-- Ordered entry list of a key-unique mapping. -/
inductive RpcEntryList where
  | nil
  | cons (k : String) (v : RpcValue) (tl : RpcEntryList)
end

mutual
/-- A wire-safe value: what plain JSON can express (no `undefined`, no
bigints, no dates, no sets, no mappings beyond string-keyed objects). -/
inductive WireValue where
  | null
  | boolV (b : Bool)
  | num (n : Int)
  | str (s : String)
  | arr (xs : WireList)
  | obj (fields : WireFields)

/-- Ordered list of wire values. -/
inductive WireList where
  | nil
  | cons (v : WireValue) (tl : WireList)

/-- Ordered field list of a wire object. -/
inductive WireFields where
  | nil
  | cons (k : String) (v : WireValue) (tl : WireFields)
end

mutual
/-- Modelled from the spec: `encode` of the codec (section 4.5).  JSON-native
values map to themselves; every value JSON cannot express natively is wrapped
in a self-describing tagged object, so the wire form carries enough type tags
to decode without external schema. -/
def encodeValue : RpcValue → WireValue
  | .null => .null
  | .undef => .obj (.cons "$type" (.str "undefined") .nil)
  | .boolV b => .boolV b
  | .num n => .num n
  | .str s => .str s
  | .bigint n =>
    .obj (.cons "$type" (.str "bigint") (.cons "value" (.num n) .nil))
  | .date ms =>
    .obj (.cons "$type" (.str "Date") (.cons "value" (.num ms) .nil))
  | .arr xs => .arr (encodeList xs)
  | .mapV es =>
    .obj (.cons "$type" (.str "Map") (.cons "value" (.arr (encodeEntries es)) .nil))
  | .setV xs =>
    .obj (.cons "$type" (.str "Set") (.cons "value" (.arr (encodeList xs)) .nil))

/-- Elementwise encoding of an ordered sequence. -/
def encodeList : RpcValueList → WireList
  | .nil => .nil
  | .cons v tl => .cons (encodeValue v) (encodeList tl)

/-- Mapping entries encode as two-element `[key, value]` wire arrays. -/
def encodeEntries : RpcEntryList → WireList
  | .nil => .nil
  | .cons k v tl =>
    .cons (.arr (.cons (.str k) (.cons (encodeValue v) .nil))) (encodeEntries tl)
end

mutual
/-- Modelled from the spec: `decode` of the codec (section 4.5), driven purely
by the type tags carried on the wire; an unrecognized tagged object fails to
decode rather than degrading silently. -/
def decodeValue : WireValue → Option RpcValue
  | .null => some .null
  | .boolV b => some (.boolV b)
  | .num n => some (.num n)
  | .str s => some (.str s)
  | .arr xs => (decodeList xs).map RpcValue.arr
  | .obj fields =>
    match fields with
    | .cons "$type" (.str "undefined") .nil => some .undef
    | .cons "$type" (.str "bigint") (.cons "value" (.num n) .nil) =>
      some (.bigint n)
    | .cons "$type" (.str "Date") (.cons "value" (.num ms) .nil) =>
      some (.date ms)
    | .cons "$type" (.str "Map") (.cons "value" (.arr es) .nil) =>
      (decodeEntries es).map RpcValue.mapV
    | .cons "$type" (.str "Set") (.cons "value" (.arr xs) .nil) =>
      (decodeList xs).map RpcValue.setV
    | _ => none

/-- Elementwise decoding of an ordered sequence; fails if any element fails. -/
def decodeList : WireList → Option RpcValueList
  | .nil => some .nil
  | .cons v tl =>
    match decodeValue v, decodeList tl with
    | some v2, some tl2 => some (.cons v2 tl2)
    | _, _ => none

/-- Decoding of mapping entries from two-element `[key, value]` wire arrays. -/
def decodeEntries : WireList → Option RpcEntryList
  | .cons (.arr (.cons (.str k) (.cons v .nil))) tl =>
    match decodeValue v, decodeEntries tl with
    | some v2, some tl2 => some (.cons k v2 tl2)
    | _, _ => none
  | .nil => some .nil
  | .cons _ _ => none
end

/-- Transport response as the calling closure of `createRpcClient` observes
it: the `ok` flag, the status text, the body text, and the parsed JSON body. -/
structure FetchResponse where
  ok : Bool
  statusText : String
  bodyText : String
  jsonBody : WireValue

/-- Outcome of one proxied call: the decoded response body, or a thrown
transport error. -/
inductive RpcCallOutcome where
  | success (v : Option RpcValue)
  | transportFailure (message : String)

/-- The error message built by the calling closure on a non-success response
(`src/client.ts` line 98): it carries the remote status text and body text. -/
def rpcCallMessage (controllerName prop statusText bodyText : String) : String :=
  "RPC call to " ++ controllerName ++ "." ++ prop ++ " failed: " ++
    statusText ++ "\n" ++ bodyText

/-- Response handling of the calling closure (`src/client.ts` lines 95-103):
a non-success response throws the transport error; a success response is
decoded via the codec and returned. -/
def performRpcCall (controllerName prop : String) (res : FetchResponse) :
    RpcCallOutcome :=
  if !res.ok then
    .transportFailure (rpcCallMessage controllerName prop res.statusText res.bodyText)
  else
    .success (decodeValue res.jsonBody)

theorem guardPasses_resolve {g : GuardSpec} (hg : guardPasses g = true) :
    resolveGuard g = .ok (.ret true) := by
  unfold guardPasses at hg
  split at hg
  · assumption
  · simp at hg

theorem runGuards_cons_pass (g : GuardSpec) (rest : List GuardSpec)
    (hg : guardPasses g = true) :
    runGuards (g :: rest) = ((runGuards rest).1, g.id :: (runGuards rest).2) := by
  simp [runGuards, guardPasses_resolve hg]

theorem runGuards_append_pass (pre rest : List GuardSpec)
    (hp : ∀ p ∈ pre, guardPasses p = true) :
    runGuards (pre ++ rest) =
      ((runGuards rest).1, pre.map (·.id) ++ (runGuards rest).2) := by
  induction pre with
  | nil => simp
  | cons g tl ih =>
    have hg := hp g (by simp)
    rw [List.cons_append, runGuards_cons_pass g (tl ++ rest) hg,
      ih (fun p hp2 => hp p (by simp [hp2]))]
    simp

theorem runGuards_deny_head (g : GuardSpec) (rest : List GuardSpec)
    (hg : resolveGuard g = .ok (.ret false)) :
    runGuards (g :: rest) = (.error (.forbidden "Access denied by guard"), [g.id]) := by
  simp [runGuards, hg]

theorem runGuards_throw_head (g : GuardSpec) (rest : List GuardSpec) (m : String)
    (hg : resolveGuard g = .ok (.throwErr m)) :
    runGuards (g :: rest) = (.error (.raw m), [g.id]) := by
  simp [runGuards, hg]

/-- Claim C3: guards are evaluated sequentially, class guards then method
guards in declaration order, and evaluation short-circuits on the first
denial: every guard before the denying one passes and is evaluated in order,
the invocation fails with the `ForbiddenException` denial, no later guard's
check is invoked, and the target handler is not invoked. -/
theorem guards_in_order_short_circuit
    (setup : ActionSetup) (h : List JsValue → JsValue)
    (pre post : List GuardSpec) (g : GuardSpec)
    (methodName : String) (args : List JsValue) (requestVal : JsValue)
    (hh : setup.handler = some h)
    (hsplit : setup.classGuards ++ setup.methodGuards = pre ++ g :: post)
    (hpre : ∀ p ∈ pre, guardPasses p = true)
    (hdeny : resolveGuard g = .ok (.ret false)) :
    (invokeNestAction setup methodName args requestVal).result =
        .error (.guardErr (.forbidden "Access denied by guard")) ∧
    (invokeNestAction setup methodName args requestVal).handlerInvoked = false ∧
    (invokeNestAction setup methodName args requestVal).guardTrace =
        pre.map (·.id) ++ [g.id] ∧
    ∀ q ∈ post, q.id ∉ pre.map (·.id) → q.id ≠ g.id →
      q.id ∉ (invokeNestAction setup methodName args requestVal).guardTrace := by
  have hrun : runGuards (setup.classGuards ++ setup.methodGuards) =
      (.error (.forbidden "Access denied by guard"), pre.map (·.id) ++ [g.id]) := by
    rw [hsplit, runGuards_append_pass pre (g :: post) hpre,
      runGuards_deny_head g post hdeny]
  simp only [invokeNestAction, hh, hrun]
  refine ⟨trivial, trivial, trivial, ?_⟩
  intro q _ hq1 hq2
  simp [hq1, hq2]

/-- Guard list used in the short-circuit witness: the first guard denies. -/
def denyingGuard : GuardSpec := ⟨1, true, true, .ret false, .ret false⟩

/-- Second guard of the short-circuit witness; it would pass if evaluated. -/
def passingGuard : GuardSpec := ⟨2, true, true, .ret true, .ret true⟩

/-- Action whose class guards are `[denyingGuard, passingGuard]`. -/
def shortCircuitSetup : ActionSetup :=
  ⟨[denyingGuard, passingGuard], [], [], some (fun _ => .num 7)⟩

/-- Witness for claim C3 at the spec's concrete scenario `[G1 denies, G2]`:
the invocation fails with the guard denial, the handler is not invoked, only
`G1` was evaluated, and `G2`'s check was never invoked. -/
theorem guards_in_order_short_circuit_witness :
    (invokeNestAction shortCircuitSetup "m" [] .request).result =
        .error (.guardErr (.forbidden "Access denied by guard")) ∧
    (invokeNestAction shortCircuitSetup "m" [] .request).handlerInvoked = false ∧
    (invokeNestAction shortCircuitSetup "m" [] .request).guardTrace = [1] ∧
    (2 : Nat) ∉ (invokeNestAction shortCircuitSetup "m" [] .request).guardTrace := by
  have h := guards_in_order_short_circuit shortCircuitSetup (fun _ => .num 7)
    [] [passingGuard] denyingGuard "m" [] .request rfl rfl
    (by intro p hp; simp at hp) rfl
  exact ⟨h.1, h.2.1, h.2.2.1, h.2.2.2 passingGuard (by simp) (by simp) (by decide)⟩

/-- Guard whose DI resolution fails but whose no-argument constructor works;
the directly constructed instance authorizes the call. -/
def unresolvableGuard : GuardSpec := ⟨5, false, true, .ret false, .ret true⟩

/-- Action guarded only by `unresolvableGuard`. -/
def fallbackSetup : ActionSetup :=
  ⟨[unresolvableGuard], [], [], some (fun _ => .num 42)⟩

/-- Counterexample to claim C1: with a guard whose scope resolution fails, the
invocation does not fail with the `ForbiddenException` denial — `runGuards`
falls back to `new GuardClass()` without dependency injection, the fallback
instance's check runs (its id appears in the trace) and, the check passing,
the handler is invoked and the call succeeds. -/
theorem guard_resolution_fallback_cex :
    (invokeNestAction fallbackSetup "act" [] .request).result = .ok (.num 42) ∧
    (invokeNestAction fallbackSetup "act" [] .request).handlerInvoked = true ∧
    invokeUnauthorized (invokeNestAction fallbackSetup "act" [] .request).result
      = false ∧
    (invokeNestAction fallbackSetup "act" [] .request).guardTrace = [5] :=
  ⟨rfl, rfl, rfl, rfl⟩

/-- Claim C1 (amended): if resolving a guard within the call's scope fails,
the invocation does not fail on that ground; instead the guard is instantiated
directly with `new GuardClass()`, without dependency injection, and its
authorization check runs — the call is denied with the `ForbiddenException`
error only when that check returns a falsy value. -/
theorem guard_resolution_fallback (g : GuardSpec) (rest : List GuardSpec)
    (hres : g.resolveOk = false) (hctor : g.ctorOk = true) :
    resolveGuard g = .ok g.checkFallback ∧
    (g.checkFallback = .ret true →
      runGuards (g :: rest) = ((runGuards rest).1, g.id :: (runGuards rest).2)) ∧
    (g.checkFallback = .ret false →
      runGuards (g :: rest) =
        (.error (.forbidden "Access denied by guard"), [g.id])) := by
  have hr : resolveGuard g = .ok g.checkFallback := by
    simp [resolveGuard, hres, hctor]
  refine ⟨hr, ?_, ?_⟩
  · intro hc
    simp [runGuards, hr, hc]
  · intro hc
    simp [runGuards, hr, hc]

/-- Witness for the amended claim C1 at `unresolvableGuard`: resolution fails,
the fallback check runs and passes, and the guard chain succeeds. -/
theorem guard_resolution_fallback_witness :
    resolveGuard unresolvableGuard = .ok unresolvableGuard.checkFallback ∧
    runGuards [unresolvableGuard] = (.ok (), [5]) := by
  have h := guard_resolution_fallback unresolvableGuard [] rfl rfl
  refine ⟨h.1, ?_⟩
  rw [h.2.1 rfl]
  rfl

/-- Guard whose DI-resolved instance's check throws. -/
def throwingGuard : GuardSpec := ⟨7, true, true, .throwErr "boom", .ret true⟩

/-- Counterexample to claim C4: a guard whose check throws makes `runGuards`
propagate the raw thrown error; the outcome is not the `ForbiddenException`
(`Unauthorized`) denial the claim requires. -/
theorem guard_throw_propagates_cex :
    (runGuards [throwingGuard]).1 = .error (.raw "boom") ∧
    isUnauthorized (runGuards [throwingGuard]).1 = false :=
  ⟨rfl, rfl⟩

/-- Claim C4 (amended): after any prefix of passing guards, a guard whose
check returns a falsy value denies the call immediately with the
`ForbiddenException` error and short-circuits; a guard whose check throws also
stops the chain immediately, but its error propagates unchanged to the caller
rather than being converted to the `ForbiddenException` denial. -/
theorem guard_falsy_denies_throw_propagates
    (pre rest : List GuardSpec) (g : GuardSpec)
    (hpre : ∀ p ∈ pre, guardPasses p = true) :
    (resolveGuard g = .ok (.ret false) →
      runGuards (pre ++ g :: rest) =
        (.error (.forbidden "Access denied by guard"), pre.map (·.id) ++ [g.id])) ∧
    (∀ m, resolveGuard g = .ok (.throwErr m) →
      runGuards (pre ++ g :: rest) =
        (.error (.raw m), pre.map (·.id) ++ [g.id])) := by
  constructor
  · intro hdeny
    rw [runGuards_append_pass pre (g :: rest) hpre, runGuards_deny_head g rest hdeny]
  · intro m hthrow
    rw [runGuards_append_pass pre (g :: rest) hpre, runGuards_throw_head g rest m hthrow]

/-- Witness for the amended claim C4: a falsy first guard yields the
`ForbiddenException` denial, and the throwing guard's error propagates raw. -/
theorem guard_falsy_denies_throw_propagates_witness :
    runGuards [denyingGuard] =
      (.error (.forbidden "Access denied by guard"), [1]) ∧
    runGuards [throwingGuard] = (.error (.raw "boom"), [7]) := by
  have h1 := (guard_falsy_denies_throw_propagates [] [] denyingGuard
    (by intro p hp; simp at hp)).1 rfl
  have h2 := (guard_falsy_denies_throw_propagates [] [] throwingGuard
    (by intro p hp; simp at hp)).2 "boom" rfl
  exact ⟨by simpa using h1, by simpa using h2⟩

/-- Claim C7: with no declared parameter binding specs the binder returns the
caller-supplied argument list unchanged. -/
theorem no_metadata_passthrough (requestVal : JsValue) (rpcArgs : List JsValue) :
    resolveParamDecorators [] requestVal rpcArgs = rpcArgs := rfl

/-- Claim C9: a non-success transport response makes the proxied call fail
with the transport error carrying the response status text and body text,
and a success response is decoded via the codec and returned. -/
theorem transport_failure_surfaced (controllerName prop : String)
    (res : FetchResponse) :
    (res.ok = false →
      performRpcCall controllerName prop res =
        .transportFailure
          (rpcCallMessage controllerName prop res.statusText res.bodyText)) ∧
    (res.ok = true →
      performRpcCall controllerName prop res = .success (decodeValue res.jsonBody)) := by
  constructor
  · intro h
    simp [performRpcCall, h]
  · intro h
    simp [performRpcCall, h]

/-- Failed transport response used in the C9 witness. -/
def failedResponse : FetchResponse :=
  ⟨false, "Internal Server Error", "boom", .null⟩

/-- Successful transport response used in the C9 witness. -/
def okResponse : FetchResponse := ⟨true, "OK", "", .num 3⟩

/-- Witness for claim C9 at concrete responses. -/
theorem transport_failure_surfaced_witness :
    performRpcCall "UserController" "getUser" failedResponse =
      .transportFailure
        (rpcCallMessage "UserController" "getUser" "Internal Server Error" "boom") ∧
    performRpcCall "UserController" "getUser" okResponse =
      .success (some (.num 3)) :=
  ⟨(transport_failure_surfaced "UserController" "getUser" failedResponse).1 rfl,
   (transport_failure_surfaced "UserController" "getUser" okResponse).2 rfl⟩

/-- Claim C10: a proxy property access whose key is a symbol, or a string
starting with an underscore or `ɵ`, or a member of the reserved set, yields
`undefined`: no callable is produced (hence no network exchange can happen for
that property). -/
theorem proxy_reserved_props_yield_undefined (p : ProxyProp)
    (h : (∃ i, p = .symbolKey i) ∨
      ∃ s, p = .stringKey s ∧
        (jsStartsWith s "_" = true ∨ jsStartsWith s "ɵ" = true ∨ s ∈ IGNORED_PROPS)) :
    proxyGet p = .undef ∧ ∀ a, proxyGet p ≠ .callable a := by
  have hu : proxyGet p = .undef := by
    rcases h with ⟨i, rfl⟩ | ⟨s, rfl, hs⟩
    · rfl
    · unfold proxyGet
      rcases hs with h1 | h2 | h3
      · simp [h1]
      · simp [h2]
      · by_cases hb : (jsStartsWith s "_" || jsStartsWith s "ɵ") = true
        · simp [hb]
        · simp only [hb, Bool.false_eq_true, if_false]
          simp [h3]
  exact ⟨hu, fun a => by simp [hu]⟩

/-- Witness for claim C10 at representative keys: a symbol, a private-prefixed
name, an Angular-internal name, and a reserved lifecycle hook name. -/
theorem proxy_reserved_props_yield_undefined_witness :
    proxyGet (.symbolKey 0) = .undef ∧
    proxyGet (.stringKey "_internal") = .undef ∧
    proxyGet (.stringKey "ngOnInit") = .undef ∧
    proxyGet (.stringKey "then") = .undef := by
  refine ⟨(proxy_reserved_props_yield_undefined _ (Or.inl ⟨0, rfl⟩)).1,
    (proxy_reserved_props_yield_undefined _
      (Or.inr ⟨"_internal", rfl, Or.inl (by decide)⟩)).1,
    (proxy_reserved_props_yield_undefined _
      (Or.inr ⟨"ngOnInit", rfl, Or.inr (Or.inr (by decide))⟩)).1,
    (proxy_reserved_props_yield_undefined _
      (Or.inr ⟨"then", rfl, Or.inr (Or.inr (by decide))⟩)).1⟩

mutual
theorem decode_encodeValue : ∀ v : RpcValue, decodeValue (encodeValue v) = some v
  | .null => rfl
  | .undef => rfl
  | .boolV _ => rfl
  | .num _ => rfl
  | .str _ => rfl
  | .bigint _ => rfl
  | .date _ => rfl
  | .arr xs => by
    simp only [encodeValue, decodeValue, decode_encodeList xs]
    rfl
  | .mapV es => by
    simp only [encodeValue, decodeValue, decode_encodeEntries es]
    rfl
  | .setV xs => by
    simp only [encodeValue, decodeValue, decode_encodeList xs]
    rfl

theorem decode_encodeList : ∀ xs : RpcValueList,
    decodeList (encodeList xs) = some xs
  | .nil => rfl
  | .cons v tl => by
    simp only [encodeList, decodeList, decode_encodeValue v, decode_encodeList tl]

theorem decode_encodeEntries : ∀ es : RpcEntryList,
    decodeEntries (encodeEntries es) = some es
  | .nil => rfl
  | .cons k v tl => by
    simp only [encodeEntries, decodeEntries, decode_encodeValue v,
      decode_encodeEntries tl]
end

/-- Claim C8: for every value in the supported codec universe — primitives,
ordered sequences, key-unique mappings, set collections, date/time instants,
large integers beyond safe-float range, and the undefined marker distinct from
the null marker — decoding the encoding yields the value back structurally
unchanged. -/
theorem codec_roundtrip (v : RpcValue) : decodeValue (encodeValue v) = some v :=
  decode_encodeValue v

theorem length_le_one_eq_singleton {α : Type} {l : List α} {b : α}
    (hl : l.length ≤ 1) (hb : b ∈ l) : l = [b] := by
  match l with
  | [] => simp at hb
  | [a] =>
    simp at hb
    rw [hb]
  | a :: c :: tl => simp at hl

theorem bridgeInv_init : BridgeInv initialBridgeState := by
  constructor
  · simp [initialBridgeState]
  · intro b hb
    simp [initialBridgeState] at hb

theorem bridgeInv_step {s s2 : BridgeState} (hinv : BridgeInv s)
    (hstep : BridgeStep s s2) : BridgeInv s2 := by
  obtain ⟨hlen, hfl⟩ := hinv
  cases hstep with
  | entry =>
    unfold callerEntry
    cases hc : s.ctx with
    | some e => exact ⟨hlen, hfl⟩
    | none =>
      cases hp : s.pending with
      | some b => exact ⟨hlen, hfl⟩
      | none =>
        have hempty : s.inFlight = [] := by
          cases hq : s.inFlight with
          | nil => rfl
          | cons b tl =>
            have := (hfl b (by rw [hq]; exact List.mem_cons_self b tl)).1
            rw [hp] at this
            exact absurd this (by simp)
        constructor
        · simp [hempty]
        · intro b hb
          simp [hempty] at hb
          simp [hb]
  | success b hb =>
    have hone := length_le_one_eq_singleton hlen hb
    constructor
    · simp [buildSucceeds, hone]
    · intro b2 hb2
      simp [buildSucceeds, hone] at hb2
  | failure b hb =>
    have hone := length_le_one_eq_singleton hlen hb
    constructor
    · simp [buildFails, hone]
    · intro b2 hb2
      simp [buildFails, hone] at hb2
  | close e he =>
    have hempty : s.inFlight = [] := by
      cases hq : s.inFlight with
      | nil => rfl
      | cons b tl =>
        have := (hfl b (by rw [hq]; exact List.mem_cons_self b tl)).2
        rw [he] at this
        exact absurd this (by simp)
    constructor
    · simp [closeHook, hempty]
    · intro b hb
      simp [closeHook, hempty] at hb

theorem bridgeInv_reachable {s : BridgeState} (h : BridgeReachable s) :
    BridgeInv s := by
  induction h with
  | init => exact bridgeInv_init
  | step _ hstep ih => exact bridgeInv_step ih hstep

theorem runEntries_pending (s : BridgeState) (b : Nat)
    (hc : s.ctx = none) (hp : s.pending = some b) :
    ∀ n : Nat, runEntries n s = (s, List.replicate n (.awaiting b)) := by
  intro n
  induction n with
  | zero => simp [runEntries]
  | succ m ih =>
    have hentry : callerEntry s = (s, .awaiting b) := by
      unfold callerEntry
      rw [hc, hp]
    simp [runEntries, hentry, ih, List.replicate_succ]

theorem runEntries_init (n : Nat) :
    runEntries (n + 1) initialBridgeState =
      ({ ctx := none, pending := some 0, inFlight := [0], nextBuild := 1 },
        List.replicate (n + 1) (.awaiting 0)) := by
  have hentry : callerEntry initialBridgeState =
      ({ ctx := none, pending := some 0, inFlight := [0], nextBuild := 1 },
        .awaiting 0) := rfl
  have hrest := runEntries_pending
    { ctx := none, pending := some 0, inFlight := [0], nextBuild := 1 } 0 rfl rfl n
  simp [runEntries, hentry, hrest, List.replicate_succ]

/-- Claim C2: the bootstrap protocol never has two builds in flight at once
(every state reachable under the step relation has at most one build in
flight), and when `n` callers enter concurrently before any build completes,
the build function executes exactly once (the build counter ends at 1, one
build is in flight and published as the pending handle before anyone awaits
it), every caller awaits that same handle, and hence every caller observes the
same resulting environment or the same failure — the outcome of build 0. -/
theorem bootstrap_build_at_most_once :
    (∀ s : BridgeState, BridgeReachable s → s.inFlight.length ≤ 1) ∧
    (∀ n : Nat, 1 ≤ n →
      runEntries n initialBridgeState =
        ({ ctx := none, pending := some 0, inFlight := [0], nextBuild := 1 },
          List.replicate n (.awaiting 0)) ∧
      ∀ (outcomes : Nat → Except String Nat) (r : EntryResult),
        r ∈ (runEntries n initialBridgeState).2 →
        observeOutcome outcomes r = outcomes 0) := by
  constructor
  · intro s hs
    exact (bridgeInv_reachable hs).1
  · intro n hn
    obtain ⟨m, rfl⟩ : ∃ m, n = m + 1 :=
      ⟨n - 1, by omega⟩
    refine ⟨runEntries_init m, ?_⟩
    intro outcomes r hr
    rw [runEntries_init m] at hr
    simp only [List.mem_replicate] at hr
    rw [hr.2]
    rfl

/-- Witness for claim C2: the state after one caller entry is reachable and
has one build in flight, and three concurrent callers yield one started build
with all three awaiting handle 0. -/
theorem bootstrap_build_at_most_once_witness :
    (callerEntry initialBridgeState).1.inFlight.length ≤ 1 ∧
    runEntries 3 initialBridgeState =
      ({ ctx := none, pending := some 0, inFlight := [0], nextBuild := 1 },
        [.awaiting 0, .awaiting 0, .awaiting 0]) ∧
    observeOutcome (fun _ => .ok 0) (.awaiting 0) = .ok 0 := by
  have h := bootstrap_build_at_most_once
  have hreach : BridgeReachable (callerEntry initialBridgeState).1 :=
    BridgeReachable.step BridgeReachable.init (BridgeStep.entry initialBridgeState)
  refine ⟨h.1 _ hreach, ?_, ?_⟩
  · have h2 := (h.2 3 (by omega)).1
    simpa using h2
  · exact (h.2 3 (by omega)).2 (fun _ => .ok 0) (.awaiting 0) (by
      rw [(h.2 3 (by omega)).1]
      simp)

/-- Claim C5: when a bootstrap build fails, the pending handle is cleared
while the stored environment is left unchanged; from a state with neither a
stored environment nor a pending handle, a subsequent call starts a fresh
build (retry is possible); in the concrete failed-then-retried run the
environment becomes ready on the second attempt; and the failure of build 0 is
delivered to the caller that triggered it and to every caller that was
awaiting the same pending handle. -/
theorem bootstrap_failure_clears_pending :
    (∀ (s : BridgeState) (b : Nat),
      (buildFails s b).pending = none ∧ (buildFails s b).ctx = s.ctx) ∧
    (∀ s : BridgeState, s.ctx = none → s.pending = none →
      (callerEntry s).2 = .awaiting s.nextBuild ∧
      s.nextBuild ∈ (callerEntry s).1.inFlight ∧
      (callerEntry s).1.pending = some s.nextBuild) ∧
    (buildSucceeds
        (callerEntry (buildFails (callerEntry initialBridgeState).1 0)).1 1).ctx
      = some 1 ∧
    (∀ n : Nat, 1 ≤ n → ∀ (e : String) (outcomes : Nat → Except String Nat),
      outcomes 0 = .error e →
      ∀ r ∈ (runEntries n initialBridgeState).2,
        observeOutcome outcomes r = .error e) := by
  refine ⟨?_, ?_, rfl, ?_⟩
  · intro s b
    exact ⟨rfl, rfl⟩
  · intro s hc hp
    unfold callerEntry
    rw [hc, hp]
    exact ⟨rfl, by simp, rfl⟩
  · intro n hn e outcomes houtcome r hr
    obtain ⟨m, rfl⟩ : ∃ m, n = m + 1 := ⟨n - 1, by omega⟩
    rw [runEntries_init m] at hr
    simp only [List.mem_replicate] at hr
    rw [hr.2]
    simpa [observeOutcome] using houtcome

/-- State with a previously stored environment and a stale in-flight build,
used to witness that a build failure clears only the pending handle. -/
def staleBuildState : BridgeState := ⟨some 5, some 3, [3], 4⟩

/-- Witness for claim C5: a failure of build 3 clears the pending handle and
keeps the stored environment 5; a fresh state retries; and with build 0
failing with the error message, the caller awaiting handle 0 receives exactly
that failure. -/
theorem bootstrap_failure_clears_pending_witness :
    (buildFails staleBuildState 3).pending = none ∧
    (buildFails staleBuildState 3).ctx = some 5 ∧
    (callerEntry initialBridgeState).2 = .awaiting 0 ∧
    observeOutcome (fun _ => .error "boom") (.awaiting 0) = .error "boom" := by
  have h := bootstrap_failure_clears_pending
  refine ⟨(h.1 staleBuildState 3).1, (h.1 staleBuildState 3).2, ?_, ?_⟩
  · exact (h.2.1 initialBridgeState rfl rfl).1
  · refine h.2.2.2 2 (by omega) "boom" (fun _ => .error "boom") rfl
      (.awaiting 0) ?_
    rw [runEntries_init 1]
    simp

theorem getD_set_self {α : Type} (l : List α) {i : Nat} (h : i < l.length)
    (a d : α) : (l.set i a).getD i d = a := by
  simp [List.getD, List.get?_eq_getElem?, List.getElem?_set_self h]

theorem getD_set_other {α : Type} (l : List α) {i j : Nat} (h : i ≠ j)
    (a d : α) : (l.set i a).getD j d = l.getD j d := by
  simp [List.getD, List.get?_eq_getElem?, List.getElem?_set_ne h]

theorem getD_append_left {α : Type} (l1 l2 : List α) {i : Nat}
    (h : i < l1.length) (d : α) : (l1 ++ l2).getD i d = l1.getD i d := by
  simp [List.getD, List.get?_eq_getElem?, List.getElem?_append_left h]

theorem getD_replicate {α : Type} (n i : Nat) (a : α) :
    (List.replicate n a).getD i a = a := by
  simp only [List.getD, List.get?_eq_getElem?, List.getElem?_replicate]
  split <;> rfl

/-- The slot indices carrying a declared binding spec (the `decoratorIndices`
set of `resolveParamDecorators`). -/
def declaredIndices (md : List ParamMeta) : List Nat := md.map (·.index)

/-- The highest declared slot index (the `maxIndex` of
`resolveParamDecorators`; `0` for empty metadata). -/
def maxDeclaredIndex (md : List ParamMeta) : Nat :=
  (md.map (·.index)).foldl Nat.max 0

/-- Number of indices in the list that carry no declared binding spec. -/
def undeclCount (decl : List Nat) : List Nat → Nat
  | [] => 0
  | i :: is => (if i ∈ decl then 0 else 1) + undeclCount decl is

/-- How many slot indices below `j` carry no declared binding spec; slot `j`
itself, when undeclared, is filled from the caller argument at this position. -/
def undeclaredBefore (decl : List Nat) (j : Nat) : Nat :=
  undeclCount decl (List.range j)

/-- `true` when the metadata entry stores the adapted request view at its
slot: it is not a custom decorator carrying a factory, and its param type
parses to `RouteParamtypes.REQUEST`. -/
def requestEntry (m : ParamMeta) : Bool :=
  !(m.isCustom && m.factory.isSome) && (m.paramType == 0)

theorem foldl_max_init (l : List Nat) (a : Nat) : a ≤ l.foldl Nat.max a := by
  induction l generalizing a with
  | nil => simp
  | cons b tl ih => exact le_trans (Nat.le_max_left a b) (ih (Nat.max a b))

theorem mem_le_foldl_max (l : List Nat) (a : Nat) {x : Nat} (hx : x ∈ l) :
    x ≤ l.foldl Nat.max a := by
  induction l generalizing a with
  | nil => simp at hx
  | cons b tl ih =>
    rcases List.mem_cons.mp hx with rfl | hx2
    · exact le_trans (Nat.le_max_right a x) (foldl_max_init tl (Nat.max a x))
    · exact ih (Nat.max a b) hx2

theorem applyDecorator_length (r : JsValue) (acc : List JsValue) (m : ParamMeta) :
    (applyDecorator r acc m).length = acc.length := by
  unfold applyDecorator
  split
  · split
    · simp
    · split <;> simp
  · split <;> simp

theorem applyDecorators_length (md : List ParamMeta) (r : JsValue)
    (acc : List JsValue) :
    (md.foldl (applyDecorator r) acc).length = acc.length := by
  induction md generalizing acc with
  | nil => rfl
  | cons m tl ih =>
    simp only [List.foldl_cons]
    rw [ih (applyDecorator r acc m), applyDecorator_length]

theorem applyDecorator_getD_other (r : JsValue) (acc : List JsValue)
    (m : ParamMeta) {j : Nat} (h : m.index ≠ j) (d : JsValue) :
    (applyDecorator r acc m).getD j d = acc.getD j d := by
  unfold applyDecorator
  split
  · split
    · exact getD_set_other acc h _ d
    · split
      · exact getD_set_other acc h _ d
      · rfl
  · split
    · exact getD_set_other acc h _ d
    · rfl

theorem applyDecorators_getD_not_mem (md : List ParamMeta) (r : JsValue)
    (acc : List JsValue) {j : Nat} (d : JsValue)
    (h : ∀ m ∈ md, m.index ≠ j) :
    (md.foldl (applyDecorator r) acc).getD j d = acc.getD j d := by
  induction md generalizing acc with
  | nil => rfl
  | cons m tl ih =>
    simp only [List.foldl_cons]
    rw [ih (applyDecorator r acc m) (fun m2 hm2 => h m2 (List.mem_cons_of_mem m hm2)),
      applyDecorator_getD_other r acc m (h m (List.mem_cons_self m tl)) d]

theorem applyDecorator_getD_request (r : JsValue) (acc : List JsValue)
    (m : ParamMeta) (hreq : requestEntry m = true) (hlt : m.index < acc.length)
    (d : JsValue) : (applyDecorator r acc m).getD m.index d = r := by
  unfold requestEntry at hreq
  simp only [Bool.and_eq_true, Bool.not_eq_eq_eq_not, Bool.not_true, beq_iff_eq] at hreq
  obtain ⟨hnc, hpt⟩ := hreq
  unfold applyDecorator
  rcases hic : m.isCustom with _ | _
  · simp only [hic, Bool.false_eq_true, if_false, hpt]
    exact getD_set_self acc hlt r d
  · rw [hic] at hnc
    simp only [Bool.true_and] at hnc
    have hf : m.factory = none := Option.not_isSome_iff_eq_none.mp (by simp [hnc])
    simp only [hic, if_true, hf, hpt]
    exact getD_set_self acc hlt r d

theorem applyDecorators_getD_request (md : List ParamMeta) (r : JsValue)
    (acc : List JsValue) (hnodup : (declaredIndices md).Nodup)
    (m : ParamMeta) (hm : m ∈ md) (hreq : requestEntry m = true)
    (hlt : m.index < acc.length) (d : JsValue) :
    (md.foldl (applyDecorator r) acc).getD m.index d = r := by
  induction md generalizing acc with
  | nil => simp at hm
  | cons m0 tl ih =>
    simp only [declaredIndices, List.map_cons, List.nodup_cons] at hnodup
    obtain ⟨hni, hnd⟩ := hnodup
    simp only [List.foldl_cons]
    rcases List.mem_cons.mp hm with heq | hm2
    · subst heq
      rw [applyDecorators_getD_not_mem tl r (applyDecorator r acc m) d ?_,
        applyDecorator_getD_request r acc m hreq hlt d]
      intro m2 hm2 heq2
      exact hni (heq2 ▸ List.mem_map_of_mem (·.index) hm2)
    · exact ih (applyDecorator r acc m0) hnd hm2
        (by rw [applyDecorator_length]; exact hlt)

theorem fillUndeclared_length (decl : List Nat) (is : List Nat)
    (arr : List JsValue) (args : List JsValue) :
    (fillUndeclared decl is (arr, args)).1.length = arr.length := by
  induction is generalizing arr args with
  | nil => rfl
  | cons i tl ih =>
    unfold fillUndeclared
    split
    · exact ih arr args
    · match args with
      | [] => exact ih arr []
      | a :: rest =>
        rw [ih (arr.set i a) rest, List.length_set]

theorem fillUndeclared_snd (decl : List Nat) (is : List Nat)
    (arr : List JsValue) (args : List JsValue) :
    (fillUndeclared decl is (arr, args)).2 = args.drop (undeclCount decl is) := by
  induction is generalizing arr args with
  | nil => rfl
  | cons i tl ih =>
    unfold fillUndeclared
    split
    · rename_i hi
      rw [ih arr args]
      simp [undeclCount, hi]
    · rename_i hi
      match args with
      | [] =>
        rw [ih arr []]
        simp
      | a :: rest =>
        rw [ih (arr.set i a) rest]
        simp [undeclCount, hi, Nat.add_comm 1 (undeclCount decl tl)]

theorem fillUndeclared_getD_skip (decl : List Nat) (is : List Nat)
    (arr : List JsValue) (args : List JsValue) {j : Nat} (d : JsValue)
    (h : j ∈ decl ∨ j ∉ is) :
    (fillUndeclared decl is (arr, args)).1.getD j d = arr.getD j d := by
  induction is generalizing arr args with
  | nil => rfl
  | cons i tl ih =>
    have htl : j ∈ decl ∨ j ∉ tl := by
      rcases h with h1 | h2
      · exact Or.inl h1
      · exact Or.inr (fun hmem => h2 (List.mem_cons_of_mem i hmem))
    have hij : i ∈ decl ∨ i ≠ j := by
      rcases h with h1 | h2
      · by_cases hc : i ∈ decl
        · exact Or.inl hc
        · refine Or.inr (fun heq => ?_)
          exact hc (heq ▸ h1)
      · exact Or.inr (fun heq => h2 (heq ▸ List.mem_cons_self i tl))
    unfold fillUndeclared
    split
    · exact ih arr args htl
    · rename_i hi
      have hne : i ≠ j := by
        rcases hij with h1 | h2
        · exact absurd h1 hi
        · exact h2
      match args with
      | [] => exact ih arr [] htl
      | a :: rest =>
        rw [ih (arr.set i a) rest htl, getD_set_other arr hne a d]

/-- Position that the undeclared slot `j` occupies among the undeclared slots
of the index list, i.e. which caller argument the fill loop assigns to it. -/
def fillPos (decl : List Nat) (j : Nat) : List Nat → Nat
  | [] => 0
  | i :: is =>
    if i = j then 0
    else if i ∈ decl then fillPos decl j is
    else fillPos decl j is + 1

theorem fillUndeclared_getD_fill (decl : List Nat) (is : List Nat) :
    ∀ (arr : List JsValue) (args : List JsValue) (j : Nat),
    is.Nodup → j ∈ is → j ∉ decl → j < arr.length →
    (∀ j2 ∈ is, j2 ∉ decl → arr.getD j2 JsValue.undef = JsValue.undef) →
    (fillUndeclared decl is (arr, args)).1.getD j JsValue.undef =
      args.getD (fillPos decl j is) JsValue.undef := by
  induction is with
  | nil =>
    intro arr args j _ hj
    simp at hj
  | cons i tl ih =>
    intro arr args j hnodup hj hjd hjlt hinv
    obtain ⟨hni, hnd⟩ := List.nodup_cons.mp hnodup
    rcases List.mem_cons.mp hj with heq | hmem
    · subst heq
      unfold fillUndeclared
      rw [if_neg hjd]
      match args with
      | [] =>
        rw [fillUndeclared_getD_skip decl tl arr [] JsValue.undef (Or.inr hni)]
        simp only [fillPos, if_pos rfl, List.getD_nil]
        exact hinv j (List.mem_cons_self j tl) hjd
      | a :: rest =>
        rw [fillUndeclared_getD_skip decl tl (arr.set j a) rest JsValue.undef
          (Or.inr hni), getD_set_self arr hjlt a JsValue.undef]
        simp [fillPos]
    · have hij : i ≠ j := fun heq => hni (heq ▸ hmem)
      unfold fillUndeclared
      split
      · rename_i hi
        rw [ih arr args j hnd hmem hjd hjlt
          (fun j2 h2 hd2 => hinv j2 (List.mem_cons_of_mem i h2) hd2)]
        simp [fillPos, hij, hi]
      · rename_i hi
        match args with
        | [] =>
          rw [ih arr [] j hnd hmem hjd hjlt
            (fun j2 h2 hd2 => hinv j2 (List.mem_cons_of_mem i h2) hd2)]
          simp
        | a :: rest =>
          rw [ih (arr.set i a) rest j hnd hmem hjd
            (by rw [List.length_set]; exact hjlt)
            (fun j2 h2 hd2 => by
              rw [getD_set_other arr (fun heq => hni (by rw [heq]; exact h2))
                a JsValue.undef]
              exact hinv j2 (List.mem_cons_of_mem i h2) hd2)]
          simp [fillPos, hij, hi]

theorem fillPos_append_mem (decl : List Nat) (j : Nat) (is1 is2 : List Nat)
    (h : j ∈ is1) :
    fillPos decl j (is1 ++ is2) = fillPos decl j is1 := by
  induction is1 with
  | nil => simp at h
  | cons i tl ih =>
    by_cases hij : i = j
    · simp [fillPos, hij]
    · have hmem : j ∈ tl := by
        rcases List.mem_cons.mp h with heq | hm
        · exact absurd heq.symm hij
        · exact hm
      by_cases hd : i ∈ decl
      · simp [fillPos, hij, hd, ih hmem]
      · simp [fillPos, hij, hd, ih hmem]

theorem fillPos_append_not_mem (decl : List Nat) (j : Nat) (is1 is2 : List Nat)
    (h : j ∉ is1) :
    fillPos decl j (is1 ++ is2) = undeclCount decl is1 + fillPos decl j is2 := by
  induction is1 with
  | nil => simp [undeclCount]
  | cons i tl ih =>
    have hij : i ≠ j := fun heq => h (heq ▸ List.mem_cons_self i tl)
    have htl : j ∉ tl := fun hm => h (List.mem_cons_of_mem i hm)
    by_cases hd : i ∈ decl
    · simp only [List.cons_append, fillPos, if_neg hij, if_pos hd, List.append_eq]
      rw [ih htl]
      simp [undeclCount, hd]
    · simp only [List.cons_append, fillPos, if_neg hij, if_neg hd, List.append_eq]
      rw [ih htl]
      simp [undeclCount, hd]
      omega

theorem fillPos_range (decl : List Nat) (j n : Nat) (hj : j < n) :
    fillPos decl j (List.range n) = undeclaredBefore decl j := by
  induction n with
  | zero => omega
  | succ m ih =>
    rw [List.range_succ]
    by_cases hjm : j < m
    · rw [fillPos_append_mem decl j (List.range m) [m] (List.mem_range.mpr hjm)]
      exact ih hjm
    · have hje : j = m := by omega
      subst hje
      rw [fillPos_append_not_mem decl j (List.range j) [j] (by simp)]
      simp [fillPos, undeclaredBefore]

theorem resolveParamDecorators_eq (md : List ParamMeta) (r : JsValue)
    (args : List JsValue) (hne : md ≠ []) :
    resolveParamDecorators md r args =
      (fillUndeclared (declaredIndices md)
        (List.range (maxDeclaredIndex md + 1))
        (md.foldl (applyDecorator r)
          (List.replicate (maxDeclaredIndex md + 1) JsValue.undef), args)).1 ++
      (fillUndeclared (declaredIndices md)
        (List.range (maxDeclaredIndex md + 1))
        (md.foldl (applyDecorator r)
          (List.replicate (maxDeclaredIndex md + 1) JsValue.undef), args)).2 := by
  unfold resolveParamDecorators
  rw [if_neg (by simp [hne])]
  rfl

theorem drop_append_len {α : Type} (l1 l2 : List α) (n : Nat)
    (h : l1.length = n) : (l1 ++ l2).drop n = l2 := by
  subst h
  exact List.drop_left l1 l2

/-- Claim C6: for a descriptor with at least one declared binding spec (with
pairwise-distinct slot indices), the binder builds a declared region of length
`maxIndex + 1`: a slot declared with the request-context tag holds the adapted
request view, every undeclared slot holds the caller argument at its
fill position (consumed left-to-right in increasing index order, `undefined`
once the arguments run out), and the caller arguments left over after the
declared region is filled sit after it unchanged and in order. -/
theorem binder_allocates_and_fills (md : List ParamMeta) (requestVal : JsValue)
    (args : List JsValue) (hne : md ≠ [])
    (hnodup : (declaredIndices md).Nodup) :
    (resolveParamDecorators md requestVal args).length =
        (maxDeclaredIndex md + 1) +
          (args.length -
            undeclaredBefore (declaredIndices md) (maxDeclaredIndex md + 1)) ∧
    (resolveParamDecorators md requestVal args).drop (maxDeclaredIndex md + 1) =
        args.drop
          (undeclaredBefore (declaredIndices md) (maxDeclaredIndex md + 1)) ∧
    (∀ m ∈ md, requestEntry m = true →
        (resolveParamDecorators md requestVal args).getD m.index JsValue.undef =
          requestVal) ∧
    (∀ j, j ≤ maxDeclaredIndex md → j ∉ declaredIndices md →
        (resolveParamDecorators md requestVal args).getD j JsValue.undef =
          args.getD (undeclaredBefore (declaredIndices md) j) JsValue.undef) := by
  have heq := resolveParamDecorators_eq md requestVal args hne
  have hlenA : (md.foldl (applyDecorator requestVal)
      (List.replicate (maxDeclaredIndex md + 1) JsValue.undef)).length =
      maxDeclaredIndex md + 1 := by
    rw [applyDecorators_length]
    simp
  have hF1len : (fillUndeclared (declaredIndices md)
      (List.range (maxDeclaredIndex md + 1))
      (md.foldl (applyDecorator requestVal)
        (List.replicate (maxDeclaredIndex md + 1) JsValue.undef), args)).1.length =
      maxDeclaredIndex md + 1 := by
    rw [fillUndeclared_length, hlenA]
  have hsnd := fillUndeclared_snd (declaredIndices md)
    (List.range (maxDeclaredIndex md + 1))
    (md.foldl (applyDecorator requestVal)
      (List.replicate (maxDeclaredIndex md + 1) JsValue.undef)) args
  have hinv : ∀ j2 ∈ List.range (maxDeclaredIndex md + 1),
      j2 ∉ declaredIndices md →
      (md.foldl (applyDecorator requestVal)
        (List.replicate (maxDeclaredIndex md + 1) JsValue.undef)).getD j2
        JsValue.undef = JsValue.undef := by
    intro j2 _ hd2
    rw [applyDecorators_getD_not_mem md requestVal _ JsValue.undef
      (fun m hm heq2 => hd2 (by
        rw [← heq2]
        exact List.mem_map_of_mem (·.index) hm))]
    exact getD_replicate _ j2 JsValue.undef
  refine ⟨?_, ?_, ?_, ?_⟩
  · rw [heq, List.length_append, hF1len, hsnd, List.length_drop]
    rfl
  · rw [heq, drop_append_len _ _ _ hF1len, hsnd]
    rfl
  · intro m hm hreq
    have hmem : m.index ∈ declaredIndices md := List.mem_map_of_mem (·.index) hm
    have hle : m.index ≤ maxDeclaredIndex md := by
      show m.index ≤ (md.map (·.index)).foldl Nat.max 0
      exact mem_le_foldl_max _ 0 hmem
    have hlt : m.index < maxDeclaredIndex md + 1 := Nat.lt_succ_of_le hle
    rw [heq, getD_append_left _ _ (by rw [hF1len]; exact hlt) _,
      fillUndeclared_getD_skip (declaredIndices md)
        (List.range (maxDeclaredIndex md + 1)) _ args JsValue.undef
        (Or.inl hmem),
      applyDecorators_getD_request md requestVal _ hnodup m hm hreq
        (by rw [List.length_replicate]; exact hlt) JsValue.undef]
  · intro j hj hjd
    have hlt : j < maxDeclaredIndex md + 1 := Nat.lt_succ_of_le hj
    rw [heq, getD_append_left _ _ (by rw [hF1len]; exact hlt) _,
      fillUndeclared_getD_fill (declaredIndices md)
        (List.range (maxDeclaredIndex md + 1)) _ args j
        (List.nodup_range _) (List.mem_range.mpr hlt) hjd
        (by rw [hlenA]; exact hlt) hinv,
      fillPos_range (declaredIndices md) j (maxDeclaredIndex md + 1) hlt]

/-- Metadata of a descriptor declaring only slot 0, bound to the request
context tag (`RouteParamtypes.REQUEST`). -/
def requestOnlyMeta : List ParamMeta := [⟨false, 0, 0, none, JsValue.null⟩]

/-- Witness for claim C6 at the spec's concrete scenario: slot 0 bound to the
request context, caller args `["abc"]`, bound args `[<request>, "abc"]`. -/
theorem binder_allocates_and_fills_witness :
    resolveParamDecorators requestOnlyMeta .request [.str "abc"] =
      [.request, .str "abc"] ∧
    (resolveParamDecorators requestOnlyMeta .request [.str "abc"]).getD 0
      JsValue.undef = .request ∧
    (resolveParamDecorators requestOnlyMeta .request [.str "abc"]).length = 2 := by
  have h := binder_allocates_and_fills requestOnlyMeta .request [.str "abc"]
    (by simp [requestOnlyMeta]) (by simp [declaredIndices, requestOnlyMeta])
  refine ⟨rfl, ?_, rfl⟩
  exact h.2.2.1 ⟨false, 0, 0, none, JsValue.null⟩ (by simp [requestOnlyMeta]) rfl
